import Mathlib

/-!
Shallow embedding of the traversal-and-filtering engine of `src/main.py`:
ignore-file parsing (`load_gitignore`), admission (`is_ignored`), path depth
(`get_depth`), and the snapshot collector (`generate_file_tree_and_content`),
modelled over an abstract in-memory file tree.  Python string primitives are
modelled on `List Char`, faithful to CPython semantics for the ASCII inputs
the program manipulates.
-/

/-- The path separator `os.sep` on the POSIX platform the program targets. -/
def PathSep : Char := '/'

/-- Python `s.split(sep)` on character lists: splitting the empty list yields
one empty segment, and every separator character starts a new segment. -/
def splitSepList (sep : Char) : List Char → List (List Char)
  | [] => [[]]
  | c :: cs =>
    match splitSepList sep cs with
    | [] => [[]]
    | r :: rs => if c = sep then [] :: r :: rs else (c :: r) :: rs

/-- Python `s.split(sep)` for strings. -/
def pySplit (sep : Char) (s : String) : List String :=
  (splitSepList sep s.data).map fun l => ⟨l⟩

/-- Python `s.lower()` (ASCII-faithful). -/
def pyLower (s : String) : String := ⟨s.data.map Char.toLower⟩

/-- Python `s.startswith(pre)`. -/
def pyStartsWith (s pre : String) : Bool := pre.data.isPrefixOf s.data

/-- Python `s.endswith(suf)`. -/
def pyEndsWith (s suf : String) : Bool := suf.data.isSuffixOf s.data

/-- Python `s.strip()`: drop whitespace from both ends. -/
def pyStrip (s : String) : String :=
  ⟨((s.data.dropWhile Char.isWhitespace).reverse.dropWhile Char.isWhitespace).reverse⟩

/-- Python `os.path.basename`: the part of the path after the final separator. -/
def basename (p : String) : String := (pySplit PathSep p).getLastD ""

/-- Python `os.path.join` restricted to the relative paths the program builds
(`os.path.join("", n) = n`, `os.path.join(rel, n) = rel + "/" + n`). -/
def joinRel (rel n : String) : String := if rel = "" then n else rel ++ "/" ++ n

/-- `MAX_LINES = 1000` (src/main.py line 15). -/
def MAX_LINES : Nat := 1000

/-- `MAX_BYTES = 100 * 1024` (src/main.py line 16). -/
def MAX_BYTES : Nat := 100 * 1024

/-- `EXCLUDED_EXTENSIONS` (src/main.py line 18).  A Python `set`; only
membership and `any`-iteration are used, so a list is a faithful model. -/
def EXCLUDED_EXTENSIONS : List String :=
  [".pyc", ".tar", ".7z", ".zip", ".mp4", ".mp3", ".pdf", ".jpg", ".png", "tar.lz"]

/-- `EXCLUDED_FILES` (src/main.py line 19). -/
def EXCLUDED_FILES : List String := ["license", "license.md", "license.txt", ".gitignore"]

/-- `MAX_DEPTH = 2` (src/main.py line 20). -/
def MAX_DEPTH : Nat := 2

/-- `load_gitignore` (src/main.py lines 22-28).  The root `.gitignore` file is
modelled as `Option (List String)`: `none` when the file does not exist, and
`some lines` giving its lines (iteration of a Python text file) otherwise. -/
def load_gitignore (gitignoreFile : Option (List String)) : List String :=
  match gitignoreFile with
  | some file => (file.filter fun line => pyStrip line != "" && !(pyStartsWith line "#")).map pyStrip
  | none => []

/-- `is_ignored` (src/main.py lines 30-36). -/
def is_ignored (file_path : String) (ignored_patterns : List String) : Bool :=
  if EXCLUDED_EXTENSIONS.any (fun ext => pyEndsWith file_path (pyLower ext)) then true
  else if EXCLUDED_FILES.contains (pyLower (basename file_path)) then true
  else ignored_patterns.any fun pattern =>
    pyStartsWith file_path pattern || (pySplit PathSep file_path).contains pattern

/-- `get_depth` (src/main.py lines 38-40). -/
def get_depth (relative_path : String) : Nat := (pySplit PathSep relative_path).length

/-- One file of the abstract filesystem: its name, its on-disk byte size
(`os.path.getsize`), and the result of reading it as text
(`open(...).readlines()`): `none` models any read error (permission,
encoding, I/O), `some lines` the list of lines as read. -/
structure FsFile where
  name : String
  size : Nat
  content : Option (List String)

mutual
/-- A directory of the abstract filesystem: named subdirectories and files. -/
inductive FsDir : Type where
  | node : FsEntries → List FsFile → FsDir

/-- The ordered list of named subdirectories of a directory. -/
inductive FsEntries : Type where
  | enil : FsEntries
  | econs : String → FsDir → FsEntries → FsEntries
end

/-- The per-file body of the walk loop (src/main.py lines 62-82): admission
check, size ceiling (checked before the content is consulted), read, line
ceiling, and insertion of `relative_file_path -> "".join(lines)`.  `none`
models `continue` (the file contributes nothing to `repo_data`). -/
def processFile (patterns : List String) (rel : String) (f : FsFile) : Option (String × String) :=
  let relative_file_path := joinRel rel f.name
  if is_ignored relative_file_path patterns then none
  else if MAX_BYTES < f.size then none
  else match f.content with
    | none => none
    | some lines =>
      if MAX_LINES < lines.length then none
      else some (relative_file_path, String.join lines)

mutual
/-- The `os.walk` loop of `generate_file_tree_and_content`
(src/main.py lines 47-82) on one visited directory, `rel` being
`os.path.relpath(root, repo_path)` normalized to `""` at the root.  The
first `".git"` entry is always dropped from descent (lines 49-50); when
`get_depth rel >= MAX_DEPTH` the body `continue`s (lines 56-57): no files
are recorded and the ignore filter of line 60 is not applied to the
subdirectories, though the walk still descends. -/
def walkDir (patterns : List String) (rel : String) : FsDir → List (String × String)
  | .node entries files =>
    if MAX_DEPTH ≤ get_depth rel then
      walkEntries patterns rel false true entries
    else
      files.filterMap (processFile patterns rel) ++ walkEntries patterns rel true true entries

/-- Descent into the subdirectory list: `gitAvail` records whether the single
`dirs.remove(".git")` is still pending, `doFilter` whether the ignore filter
of line 60 applies (it does not when the visiting body was skipped by the
depth `continue`). -/
def walkEntries (patterns : List String) (rel : String) (doFilter gitAvail : Bool) :
    FsEntries → List (String × String)
  | .enil => []
  | .econs n d rest =>
    if gitAvail && n == ".git" then
      walkEntries patterns rel doFilter false rest
    else
      (if doFilter && is_ignored (joinRel rel n) patterns then []
       else walkDir patterns (joinRel rel n) d)
      ++ walkEntries patterns rel doFilter gitAvail rest
end

/-- `generate_file_tree_and_content` (src/main.py lines 42-83): the produced
`repo_data` mapping, as the association list of insertions in walk order. -/
def generate_file_tree_and_content (gitignoreFile : Option (List String)) (d : FsDir) :
    List (String × String) :=
  walkDir (load_gitignore gitignoreFile) "" d

mutual
/-- Well-formedness of the abstract filesystem: entry names are single path
components, i.e. contain no separator (true of any real directory listing). -/
def wfDir : FsDir → Bool
  | .node entries files =>
    wfEntries entries && files.all fun f => !(f.name.data.contains PathSep)

/-- Well-formedness of a subdirectory list. -/
def wfEntries : FsEntries → Bool
  | .enil => true
  | .econs n d rest => !(n.data.contains PathSep) && wfDir d && wfEntries rest
end

/-- A concrete well-formed tree holding `a/b/c.txt` at relative depth 3. -/
def exampleTree : FsDir :=
  .node (.econs "a" (.node (.econs "b" (.node .enil [⟨"c.txt", 3, some ["x"]⟩]) .enil) []) .enil)
    [⟨"top.txt", 5, some ["hello"]⟩]

/-- Python `split` never yields an empty list of segments. -/
theorem splitSepList_ne_nil (sep : Char) (l : List Char) : splitSepList sep l ≠ [] := by
  induction l with
  | nil => simp [splitSepList]
  | cons c cs ih =>
    rw [splitSepList]
    split
    · simp
    · split <;> simp

/-- The number of segments is the number of separators plus one. -/
theorem length_splitSepList (sep : Char) (l : List Char) :
    (splitSepList sep l).length = l.count sep + 1 := by
  induction l with
  | nil => simp [splitSepList]
  | cons c cs ih =>
    rw [splitSepList]
    rcases h : splitSepList sep cs with _ | ⟨r, rs⟩
    · exact absurd h (splitSepList_ne_nil sep cs)
    · rw [h] at ih
      rw [List.count_cons]
      by_cases hc : c = sep
      · simp only [if_pos hc, List.length_cons] at *
        simp [hc]
        omega
      · have : (c == sep) = false := by simp [hc]
        simp only [if_neg hc, List.length_cons, this] at *
        simp
        omega

/-- Splitting distributes over concatenation at a separator. -/
theorem splitSepList_append (sep : Char) (a b : List Char) :
    splitSepList sep (a ++ sep :: b) = splitSepList sep a ++ splitSepList sep b := by
  induction a with
  | nil =>
    simp only [List.nil_append]
    conv_lhs => rw [splitSepList]
    rcases h : splitSepList sep b with _ | ⟨r, rs⟩
    · exact absurd h (splitSepList_ne_nil sep b)
    · simp [splitSepList]
  | cons c a' ih =>
    simp only [List.cons_append]
    rw [splitSepList, ih]
    rcases h : splitSepList sep a' with _ | ⟨r, rs⟩
    · exact absurd h (splitSepList_ne_nil sep a')
    · conv_rhs => rw [splitSepList]
      rw [h]
      by_cases hc : c = sep <;> simp [hc]

/-- `get_depth` counts the separators of the path plus one. -/
theorem get_depth_eq_count (s : String) : get_depth s = s.data.count PathSep + 1 := by
  unfold get_depth pySplit
  rw [List.length_map, length_splitSepList]

/-- Every path, the empty one included, has depth at least 1. -/
theorem one_le_get_depth (s : String) : 1 ≤ get_depth s := by
  rw [get_depth_eq_count]
  omega

/-- Depth of a join with a non-empty left component is the sum of depths. -/
theorem get_depth_joinRel (rel n : String) (h : rel ≠ "") :
    get_depth (joinRel rel n) = get_depth rel + get_depth n := by
  unfold joinRel
  rw [if_neg h]
  unfold get_depth pySplit
  simp only [List.length_map]
  have hdata : (rel ++ "/" ++ n).data = rel.data ++ PathSep :: n.data := by
    simp [String.data_append, PathSep]
  rw [hdata, splitSepList_append, List.length_append]

/-- Joining two separator-free components yields depth at most `MAX_DEPTH`. -/
theorem get_depth_joinRel_le (rel n : String) (h1 : rel.data.count PathSep = 0)
    (h2 : n.data.count PathSep = 0) : get_depth (joinRel rel n) ≤ MAX_DEPTH := by
  by_cases hrel : rel = ""
  · subst hrel
    rw [joinRel, if_pos rfl, get_depth_eq_count, h2, MAX_DEPTH]
    omega
  · rw [get_depth_joinRel _ _ hrel, get_depth_eq_count, get_depth_eq_count, h1, h2, MAX_DEPTH]

/-- Joining onto a path of depth at least `MAX_DEPTH` keeps the bound. -/
theorem max_depth_le_joinRel (rel n : String) (h : MAX_DEPTH ≤ get_depth rel) :
    MAX_DEPTH ≤ get_depth (joinRel rel n) := by
  have hrel : rel ≠ "" := by
    intro he
    subst he
    have h1 : get_depth "" = 1 := rfl
    rw [h1, MAX_DEPTH] at h
    omega
  rw [get_depth_joinRel _ _ hrel]
  have := one_le_get_depth n
  omega

/-- Joining onto a non-empty separator-free path reaches depth `MAX_DEPTH`. -/
theorem max_depth_le_joinRel_of_ne (rel n : String) (hrel : rel ≠ "")
    (h1 : rel.data.count PathSep = 0) : MAX_DEPTH ≤ get_depth (joinRel rel n) := by
  rw [get_depth_joinRel _ _ hrel, get_depth_eq_count, h1]
  have := one_le_get_depth n
  rw [MAX_DEPTH]
  omega

/-- A file whose read fails (content `none`) is never inserted: its
`try` body ends in the logging `except` and contributes nothing. -/
theorem processFile_none_content (patterns : List String) (rel n : String) (sz : Nat) :
    processFile patterns rel ⟨n, sz, none⟩ = none := by
  unfold processFile
  dsimp only
  split
  · rfl
  · split <;> rfl

/-- Any key inserted by the file loop is `os.path.join(relative_path, file_name)`. -/
theorem processFile_fst (patterns : List String) (rel : String) (f : FsFile)
    (kv : String × String) (h : processFile patterns rel f = some kv) :
    kv.1 = joinRel rel f.name := by
  obtain ⟨nm, sz, c⟩ := f
  rcases c with _ | lines
  · rw [processFile_none_content] at h
    exact absurd h (by simp)
  · unfold processFile at h
    dsimp only at h
    split at h
    · exact absurd h (by simp)
    · split at h
      · exact absurd h (by simp)
      · split at h
        · exact absurd h (by simp)
        · injection h with h
          subst h
          rfl

mutual
/-- A directory whose relative depth reaches `MAX_DEPTH` contributes no
entries at all: its own files are skipped by the `continue` and every deeper
directory fails the same depth test. -/
theorem walkDir_prune (patterns : List String) :
    ∀ (d : FsDir) (rel : String), MAX_DEPTH ≤ get_depth rel →
      walkDir patterns rel d = []
  | .node entries files, rel, h => by
    rw [walkDir, if_pos h]
    exact walkEntries_prune patterns entries rel false true h

/-- Companion of `walkDir_prune` for subdirectory lists. -/
theorem walkEntries_prune (patterns : List String) :
    ∀ (es : FsEntries) (rel : String) (doFilter gitAvail : Bool), MAX_DEPTH ≤ get_depth rel →
      walkEntries patterns rel doFilter gitAvail es = []
  | .enil, rel, doFilter, gitAvail, h => rfl
  | .econs n d rest, rel, doFilter, gitAvail, h => by
    rw [walkEntries]
    split
    · exact walkEntries_prune patterns rest rel doFilter false h
    · rw [walkDir_prune patterns d (joinRel rel n) (max_depth_le_joinRel rel n h),
        walkEntries_prune patterns rest rel doFilter gitAvail h]
      split <;> rfl
end

mutual
/-- In a well-formed tree, every key recorded while visiting a directory
whose relative path is a single component has depth at most `MAX_DEPTH`. -/
theorem walkDir_depth_le (patterns : List String) :
    ∀ (d : FsDir) (rel : String), wfDir d = true → rel.data.count PathSep = 0 →
      ∀ kv ∈ walkDir patterns rel d, get_depth kv.1 ≤ MAX_DEPTH
  | .node entries files, rel, hwf, hrel, kv, hkv => by
    rw [wfDir, Bool.and_eq_true] at hwf
    rw [walkDir] at hkv
    have hlt : ¬ MAX_DEPTH ≤ get_depth rel := by
      rw [get_depth_eq_count, hrel, MAX_DEPTH]
      omega
    rw [if_neg hlt, List.mem_append] at hkv
    rcases hkv with hkv | hkv
    · rw [List.mem_filterMap] at hkv
      obtain ⟨f, hf, hpf⟩ := hkv
      have hname : (f.name.data.contains PathSep) = false := by
        have := (List.all_eq_true.mp hwf.2) f hf
        simpa using this
      have hcount : f.name.data.count PathSep = 0 :=
        List.count_eq_zero.mpr (by simpa using hname)
      rw [processFile_fst patterns rel f kv hpf]
      exact get_depth_joinRel_le rel f.name hrel hcount
    · exact walkEntries_depth_le patterns entries rel true true hwf.1 hrel kv hkv

/-- Companion of `walkDir_depth_le` for subdirectory lists. -/
theorem walkEntries_depth_le (patterns : List String) :
    ∀ (es : FsEntries) (rel : String) (doFilter gitAvail : Bool),
      wfEntries es = true → rel.data.count PathSep = 0 →
      ∀ kv ∈ walkEntries patterns rel doFilter gitAvail es, get_depth kv.1 ≤ MAX_DEPTH
  | .econs n d rest, rel, doFilter, gitAvail, hwf, hrel, kv, hkv => by
    rw [wfEntries, Bool.and_eq_true, Bool.and_eq_true] at hwf
    obtain ⟨⟨hn, hd⟩, hrest⟩ := hwf
    rw [walkEntries] at hkv
    split at hkv
    · exact walkEntries_depth_le patterns rest rel doFilter false hrest hrel kv hkv
    · rw [List.mem_append] at hkv
      rcases hkv with hkv | hkv
      · have hncount : n.data.count PathSep = 0 :=
          List.count_eq_zero.mpr (by simpa using hn)
        by_cases hrelE : rel = ""
        · subst hrelE
          have hjoin : joinRel "" n = n := by rw [joinRel, if_pos rfl]
          rw [hjoin] at hkv
          split at hkv
          · exact absurd hkv (by simp)
          · exact walkDir_depth_le patterns d n hd hncount kv hkv
        · have hge : MAX_DEPTH ≤ get_depth (joinRel rel n) :=
            max_depth_le_joinRel_of_ne rel n hrelE hrel
          split at hkv
          · exact absurd hkv (by simp)
          · rw [walkDir_prune patterns d (joinRel rel n) hge] at hkv
            exact absurd hkv (by simp)
      · exact walkEntries_depth_le patterns rest rel doFilter gitAvail hrest hrel kv hkv
end

/-- A path whose literal suffix equals a lowercased deny-list extension is
ignored (the deny-list entries being lowercase already, lowercasing them is
the identity). -/
theorem ext_suffix_ignored (P : String) (patterns : List String) (ext : String)
    (hmem : ext ∈ EXCLUDED_EXTENSIONS) (hsuf : pyEndsWith P (pyLower ext) = true) :
    is_ignored P patterns = true := by
  unfold is_ignored
  have hc : (EXCLUDED_EXTENSIONS.any fun e => pyEndsWith P (pyLower e)) = true :=
    List.any_eq_true.mpr ⟨ext, hmem, hsuf⟩
  rw [hc]
  rfl

/-- C1, counterexample: the extension test is not case-insensitive.  The
path `A.PYC` lowercases to a string with the deny-listed suffix `.pyc`, yet
`is_ignored` returns `false`: line 32 lowercases the deny-list entry, never
the path, so the comparison is case-sensitive in the path. -/
theorem is_ignored_case_counterexample :
    pyEndsWith (pyLower "A.PYC") ".pyc" = true ∧ ".pyc" ∈ EXCLUDED_EXTENSIONS ∧
      is_ignored "A.PYC" [] = false :=
  ⟨by decide, by decide, by decide⟩

/-- C1, amended: for every path whose literal (case-sensitive) suffix
matches a deny-listed extension (the entry being lowercased first, a no-op),
`is_ignored` returns true for any pattern list. -/
theorem is_ignored_excluded_extension (P : String) (patterns : List String) (ext : String)
    (hmem : ext ∈ EXCLUDED_EXTENSIONS) (hsuf : pyEndsWith P (pyLower ext) = true) :
    is_ignored P patterns = true :=
  ext_suffix_ignored P patterns ext hmem hsuf

/-- C1, witness: `a.pyc` is excluded by the extension deny-list. -/
theorem is_ignored_excluded_extension_witness :
    ".pyc" ∈ EXCLUDED_EXTENSIONS ∧ pyEndsWith "a.pyc" (pyLower ".pyc") = true ∧
      is_ignored "a.pyc" [] = true :=
  ⟨by decide, by decide, is_ignored_excluded_extension "a.pyc" [] ".pyc" (by decide) (by decide)⟩

/-- C2: with `MAX_DEPTH = 2`, a file whose relative path has depth 3 (such
as `a/b/c.txt`) is never a key of the snapshot returned by
`generate_file_tree_and_content`, for every well-formed input tree and every
ignore file: a directory of relative depth at least `MAX_DEPTH` contributes
no file entries to the accumulating mapping. -/
theorem collect_depth_pruned (gitignoreFile : Option (List String)) (d : FsDir) (p : String)
    (hwf : wfDir d = true) (hdepth : 3 ≤ get_depth p) :
    p ∉ (generate_file_tree_and_content gitignoreFile d).map Prod.fst := by
  intro hmem
  rw [List.mem_map] at hmem
  obtain ⟨kv, hkv, hfst⟩ := hmem
  have hle : get_depth kv.1 ≤ MAX_DEPTH :=
    walkDir_depth_le (load_gitignore gitignoreFile) d "" hwf (by decide) kv hkv
  rw [hfst, MAX_DEPTH] at hle
  omega

/-- C2, witness: `a/b/c.txt` of `exampleTree` is absent from the snapshot. -/
theorem collect_depth_pruned_witness :
    wfDir exampleTree = true ∧ 3 ≤ get_depth "a/b/c.txt" ∧
      "a/b/c.txt" ∉ (generate_file_tree_and_content none exampleTree).map Prod.fst :=
  ⟨by decide, by decide, collect_depth_pruned none exampleTree "a/b/c.txt" (by decide) (by decide)⟩

/-- C3: the ceilings are exclusive above: a file of exactly `MAX_BYTES`
bytes passes the size check and with at most `MAX_LINES` lines is inserted;
a file of `MAX_BYTES + 1` bytes is skipped whatever its content, even an
unreadable one (the size check precedes the read); a file with more than
`MAX_LINES` lines (in particular `MAX_LINES + 1`) is skipped. -/
theorem processFile_size_line_bounds (patterns : List String) (rel name : String)
    (sz : Nat) (lines : List String) (c : Option (List String)) :
    (sz ≤ MAX_BYTES → is_ignored (joinRel rel name) patterns = false →
      lines.length ≤ MAX_LINES →
      processFile patterns rel ⟨name, sz, some lines⟩ =
        some (joinRel rel name, String.join lines)) ∧
    (MAX_BYTES < sz → processFile patterns rel ⟨name, sz, c⟩ = none) ∧
    (MAX_LINES < lines.length →
      processFile patterns rel ⟨name, sz, some lines⟩ = none) := by
  refine ⟨?_, ?_, ?_⟩
  · intro hsz hig hln
    unfold processFile
    dsimp only
    rw [if_neg (by simp [hig]), if_neg (Nat.not_lt.mpr hsz), if_neg (Nat.not_lt.mpr hln)]
  · intro hsz
    unfold processFile
    dsimp only
    by_cases hig : is_ignored (joinRel rel name) patterns = true
    · rw [if_pos hig]
    · rw [if_neg hig, if_pos hsz]
  · intro hln
    unfold processFile
    dsimp only
    by_cases hig : is_ignored (joinRel rel name) patterns = true
    · rw [if_pos hig]
    · rw [if_neg hig]
      by_cases hsz : MAX_BYTES < sz
      · rw [if_pos hsz]
      · rw [if_neg hsz, if_pos hln]

/-- C3, witness: the boundaries at `MAX_BYTES`, `MAX_BYTES + 1` and
`MAX_LINES + 1` on concrete files. -/
theorem processFile_size_line_bounds_witness :
    MAX_BYTES ≤ MAX_BYTES ∧ is_ignored (joinRel "" "f.txt") [] = false ∧
      (["x"] : List String).length ≤ MAX_LINES ∧
      processFile [] "" ⟨"f.txt", MAX_BYTES, some ["x"]⟩ =
        some (joinRel "" "f.txt", String.join ["x"]) ∧
      processFile [] "" ⟨"f.txt", MAX_BYTES + 1, some ["x"]⟩ = none ∧
      processFile [] "" ⟨"g.txt", 3, some (List.replicate (MAX_LINES + 1) "y")⟩ = none :=
  ⟨le_refl _, by decide, by decide,
    (processFile_size_line_bounds [] "" "f.txt" MAX_BYTES ["x"] none).1
      (le_refl _) (by decide) (by decide),
    (processFile_size_line_bounds [] "" "f.txt" (MAX_BYTES + 1) ["x"] (some ["x"])).2.1
      (Nat.lt_succ_self MAX_BYTES),
    (processFile_size_line_bounds [] "" "g.txt" 3 (List.replicate (MAX_LINES + 1) "y") none).2.2
      (by simp)⟩

/-- C4: a per-file read failure never aborts collection: the failing file
contributes nothing, and the snapshot of the directory equals the snapshot
with the failing file absent, every other entry unmodified. -/
theorem collect_skips_failing_file (patterns : List String) (rel n : String) (sz : Nat)
    (es : FsEntries) (fs1 fs2 : List FsFile) :
    processFile patterns rel ⟨n, sz, none⟩ = none ∧
      walkDir patterns rel (.node es (fs1 ++ ⟨n, sz, none⟩ :: fs2)) =
        walkDir patterns rel (.node es (fs1 ++ fs2)) := by
  refine ⟨processFile_none_content patterns rel n sz, ?_⟩
  rw [walkDir, walkDir]
  by_cases h : MAX_DEPTH ≤ get_depth rel
  · rw [if_pos h, if_pos h]
  · rw [if_neg h, if_neg h, List.filterMap_append, List.filterMap_append,
      List.filterMap_cons_none (processFile_none_content patterns rel n sz)]

/-- C5: for every non-empty pattern in the list, a path that starts with the
pattern, or has the pattern as one of its separator-split segments, is
ignored; the patterns are OR-ed with no glob or regex expansion. -/
theorem is_ignored_pattern_match (patterns : List String) (pat P : String)
    (hmem : pat ∈ patterns) (hne : pat ≠ "")
    (h : pyStartsWith P pat = true ∨ (pySplit PathSep P).contains pat = true) :
    is_ignored P patterns = true := by
  unfold is_ignored
  split
  · rfl
  · split
    · rfl
    · refine List.any_eq_true.mpr ⟨pat, hmem, ?_⟩
      simp only [Bool.or_eq_true]
      exact h

/-- C5, witness: pattern `build` prefix-matches the path `buildx`. -/
theorem is_ignored_pattern_match_witness :
    "build" ∈ ["build"] ∧ ("build" : String) ≠ "" ∧
      pyStartsWith "buildx" "build" = true ∧ is_ignored "buildx" ["build"] = true :=
  ⟨by decide, by decide, by decide,
    is_ignored_pattern_match ["build"] "build" "buildx" (by decide) (by decide)
      (Or.inl (by decide))⟩

/-- C6: every path whose final segment lowercases to a deny-listed filename
is ignored for any pattern list. -/
theorem is_ignored_excluded_filename (P : String) (patterns : List String)
    (h : pyLower (basename P) ∈ EXCLUDED_FILES) :
    is_ignored P patterns = true := by
  unfold is_ignored
  split
  · rfl
  · rw [if_pos (List.elem_iff.mpr h)]

/-- C6, witness: `docs/LICENSE.md` is excluded by the filename deny-list. -/
theorem is_ignored_excluded_filename_witness :
    pyLower (basename "docs/LICENSE.md") ∈ EXCLUDED_FILES ∧
      is_ignored "docs/LICENSE.md" ["x"] = true :=
  ⟨by decide, is_ignored_excluded_filename "docs/LICENSE.md" ["x"] (by decide)⟩

/-- C7: with no ignore file `load_gitignore` returns the empty list (and,
being a total function, never fails); with a file present the result keeps
exactly the lines that are non-blank after trimming and whose raw text does
not start with the comment character, each trimmed, in file order. -/
theorem load_gitignore_spec :
    load_gitignore none = [] ∧
      ∀ file : List String, load_gitignore (some file) =
        file.filterMap fun line =>
          if pyStrip line ≠ "" ∧ pyStartsWith line "#" = false then some (pyStrip line)
          else none := by
  refine ⟨rfl, ?_⟩
  intro file
  rw [show load_gitignore (some file) =
    (file.filter fun line => pyStrip line != "" && !(pyStartsWith line "#")).map pyStrip from rfl]
  induction file with
  | nil => rfl
  | cons l ls ih =>
    rw [List.filter_cons, List.filterMap_cons]
    by_cases hb : (pyStrip l != "" && !(pyStartsWith l "#")) = true
    · rw [if_pos hb, List.map_cons, ih]
      have hp : pyStrip l ≠ "" ∧ pyStartsWith l "#" = false := by
        rw [Bool.and_eq_true, bne_iff_ne, Bool.not_eq_true'] at hb
        exact hb
      rw [if_pos hp]
    · rw [if_neg hb, ih]
      have hp : ¬(pyStrip l ≠ "" ∧ pyStartsWith l "#" = false) := by
        rw [Bool.and_eq_true, bne_iff_ne, Bool.not_eq_true'] at hb
        exact hb
      rw [if_neg hp]

/-- C8: for every string the depth is the number of segments produced by
splitting on the separator, hence at least 1; the empty string (the
normalized root) has depth 1. -/
theorem get_depth_spec :
    (∀ s : String, get_depth s = (pySplit PathSep s).length ∧ 1 ≤ get_depth s ∧
      get_depth s = s.data.count PathSep + 1) ∧ get_depth "" = 1 :=
  ⟨fun s => ⟨rfl, one_le_get_depth s, get_depth_eq_count s⟩, rfl⟩

/-- C9: the comment test reads the raw, untrimmed line, so a line of
whitespace followed by the comment character is not dropped: its trimmed
text, which starts with the comment character, becomes a pattern. -/
theorem load_gitignore_raw_comment_check (file : List String) (l : String)
    (hmem : l ∈ file) (hraw : pyStartsWith l "#" = false)
    (htrim : pyStartsWith (pyStrip l) "#" = true) :
    pyStrip l ∈ load_gitignore (some file) := by
  unfold load_gitignore
  refine List.mem_map.mpr ⟨l, List.mem_filter.mpr ⟨hmem, ?_⟩, rfl⟩
  have hne : pyStrip l ≠ "" := by
    intro he
    rw [he] at htrim
    exact absurd htrim (by decide)
  simp [hraw, hne]

/-- C9, witness: the line of two spaces then `# note` yields the pattern
`# note`. -/
theorem load_gitignore_raw_comment_check_witness :
    "  # note" ∈ ["  # note"] ∧ pyStartsWith "  # note" "#" = false ∧
      pyStartsWith (pyStrip "  # note") "#" = true ∧
      pyStrip "  # note" ∈ load_gitignore (some ["  # note"]) :=
  ⟨by decide, by decide, by decide,
    load_gitignore_raw_comment_check ["  # note"] "  # note" (by decide) (by decide)
      (by decide)⟩

/-- C10: the deny-list entry `tar.lz` has no leading dot and the extension
test is a plain suffix test on the whole path, so any path merely ending in
`tar.lz` (such as `avatar.lz`) is ignored, although its actual extension
`.lz` is not deny-listed. -/
theorem tar_lz_suffix_ignored :
    ("tar.lz" ∈ EXCLUDED_EXTENSIONS ∧ (".lz" : String) ∉ EXCLUDED_EXTENSIONS) ∧
      ∀ (P : String) (patterns : List String), pyEndsWith P "tar.lz" = true →
        is_ignored P patterns = true := by
  refine ⟨⟨by decide, by decide⟩, ?_⟩
  intro P patterns h
  refine ext_suffix_ignored P patterns "tar.lz" (by decide) ?_
  have hl : pyLower "tar.lz" = "tar.lz" := by decide
  rw [hl]
  exact h

/-- C10, witness: `avatar.lz` is excluded. -/
theorem tar_lz_suffix_ignored_witness :
    pyEndsWith "avatar.lz" "tar.lz" = true ∧ is_ignored "avatar.lz" [] = true :=
  ⟨by decide, tar_lz_suffix_ignored.2 "avatar.lz" [] (by decide)⟩
